import Mathlib

/-!
Verification of the route resolution/reconciliation core
(`actor/pushaction/route.go`).

Go strings are modelled as `List Char`; Go maps as association lists
(with last-insert-wins lookup where insertion order matters); the external
`V2Actor` control-plane client as a structure of pure functions; a Go
`error` as `Option RouteError`; a Go runtime panic (out-of-range slice
index) as `Option.none` at the result type of the function that panics.
-/

namespace CF

/-! ## Go string machinery (over `List Char`) -/

/-- Go `strings.Count(s, ".")` — the number of dots in `s`. -/
def countDot : List Char → Nat
  | [] => 0
  | c :: cs => (if c = '.' then 1 else 0) + countDot cs

/-- Split at the first dot: `some (before, after)`, or `none` when no dot.
Building block for Go `strings.SplitN(s, ".", n)`. -/
def breakAtDot : List Char → Option (List Char × List Char)
  | [] => none
  | c :: cs =>
    if c = '.' then some ([], cs)
    else
      match breakAtDot cs with
      | none => none
      | some (b, a) => some (c :: b, a)

/-- Go `strings.SplitN(s, ".", n)`: at most `n` substrings, the last one
unsplit; `n = 0` yields the empty list. -/
def goSplitN : Nat → List Char → List (List Char)
  | 0, _ => []
  | 1, l => [l]
  | n + 2, l =>
    match breakAtDot l with
    | none => [l]
    | some (b, a) => b :: goSplitN (n + 1) a

/-- Go `strings.Join(parts, ".")`. -/
def hostJoin : List (List Char) → List Char
  | [] => []
  | [x] => x
  | x :: y :: xs => x ++ '.' :: hostJoin (y :: xs)

/-- The dot-separated labels of a string (helper accumulator). -/
def labelsAux : List Char → List Char → List (List Char)
  | cur, [] => [cur.reverse]
  | cur, c :: cs =>
    if c = '.' then cur.reverse :: labelsAux [] cs else labelsAux (c :: cur) cs

/-- The dot-separated labels of a string: `labelsOf "a.b.c" = [a, b, c]`. -/
def labelsOf (l : List Char) : List (List Char) := labelsAux [] l

/-- Whether `p` is a literal starting segment of `l` (used for Go's
`strings.HasPrefix` / the `startWithProtocol` regexp anchors). -/
def startsWithL (p l : List Char) : Bool := l.take p.length = p

/-- Go `unicode.IsSpace` on the code points Go's `strings.TrimSpace` strips. -/
def isGoSpace (c : Char) : Bool :=
  c == ' ' || c == '\t' || c == '\n' || c == '\x0b' || c == '\x0c' ||
  c == '\r' || c == '\u0085' || c == '\u00A0' || c == '\u1680' ||
  c == '\u2000' || c == '\u2001' || c == '\u2002' || c == '\u2003' ||
  c == '\u2004' || c == '\u2005' || c == '\u2006' || c == '\u2007' ||
  c == '\u2008' || c == '\u2009' || c == '\u200A' || c == '\u2028' ||
  c == '\u2029' || c == '\u202F' || c == '\u205F' || c == '\u3000'

/-- Drop the characters satisfying `p` from both ends (Go `strings.Trim`
with a one-character cutset, and `strings.TrimSpace`). -/
def goTrim (p : Char → Bool) (l : List Char) : List Char :=
  ((l.dropWhile p).reverse.dropWhile p).reverse

/-- Go `strings.TrimSpace`. -/
def goTrimSpace (l : List Char) : List Char := goTrim isGoSpace l

/-- Go `strings.Trim(s, "-")`. -/
def goTrimDash (l : List Char) : List Char := goTrim (fun c => c == '-') l

/-! ## Data model -/

inductive RoutingType
  | http
  | tcp
deriving DecidableEq

inductive DomainScope
  | owned
  | shared
deriving DecidableEq

/-- A registered network domain (`v2action.Domain`, outside src/).
Modelled from the spec: attributes `name`, `guid`,
`routingType ∈ {HTTP, TCP}`, `scope ∈ {owned-by-org, shared-globally}`. -/
structure Domain where
  Name : List Char := []
  GUID : List Char := []
  routingType : RoutingType := .http
  scope : DomainScope := .owned
deriving DecidableEq

/-- Modelled from the spec: `v2action.Domain.IsTCP` (outside src/) —
whether the domain's routing type is TCP. -/
def Domain.IsTCP (d : Domain) : Bool :=
  match d.routingType with
  | .tcp => true
  | .http => false

/-- Modelled from the spec: `v2action.Domain.IsHTTP` (outside src/) —
`routingType ∈ {HTTP, TCP}`, so HTTP is exactly not-TCP. -/
def Domain.IsHTTP (d : Domain) : Bool := !d.IsTCP

/-- Modelled from the spec: `v2action.Domain.IsShared` (outside src/) —
whether the domain is shared globally rather than owned by the org. -/
def Domain.IsShared (d : Domain) : Bool :=
  match d.scope with
  | .shared => true
  | .owned => false

/-- `types.NullInt` (outside src/): an optional integer. -/
structure NullInt where
  Value : Int := 0
  IsSet : Bool := false
deriving DecidableEq

/-- A route (`v2action.Route`, outside src/), per the spec's data model:
host, domain, path, optional port, owning space, GUID (empty GUID means
"not yet created on the platform"). -/
structure Route where
  GUID : List Char := []
  Host : List Char := []
  Domain : CF.Domain := {}
  Path : List Char := []
  Port : NullInt := {}
  SpaceGUID : List Char := []
deriving DecidableEq

/-- The error values this core produces or inspects (actionerror package,
outside src/; constructors carry the payloads route.go sets or reads). -/
inductive RouteError
  | DomainNotFoundError (name : List Char)
  | NoMatchingDomainError (route : List Char)
  | RouteNotFoundError
  | RouteInDifferentSpaceError (route : List Char)
  | HostnameWithTCPDomainError
  | NoHostnameAndSharedDomainError
  | RoutePathWithTCPDomainError
  | MalformedRouteError (route : List Char)
  | InvalidHTTPRouteSettings
  | InvalidTCPRouteSettings
  | ClientError (message : List Char)
deriving DecidableEq

/-- `pushaction.Warnings`: an ordered sequence of warning strings. -/
abbrev Warnings := List (List Char)

/-- The application identity carried by a configuration. -/
structure Application where
  Name : List Char := []
  GUID : List Char := []
deriving DecidableEq

/-- `pushaction.ApplicationConfig` (the fields route.go touches). -/
structure ApplicationConfig where
  DesiredApplication : Application := {}
  CurrentRoutes : List Route := []
  DesiredRoutes : List Route := []
deriving DecidableEq

/-- `manifest.Application` (outside src/; the fields route.go reads). -/
structure ManifestApp where
  Name : List Char := []
  Hostname : List Char := []
  NoHostname : Bool := false
  RoutePath : List Char := []
  Domain : List Char := []
deriving DecidableEq

/-- The external control-plane client (`actor.V2Actor`), an interface of
pure functions: each call returns its result, warnings and optional error. -/
structure V2Client where
  GetDomainsByNameAndOrganization :
    List (List Char) → List Char → List Domain × Warnings × Option RouteError
  FindRouteBoundToSpaceWithSettings :
    Route → Route × Warnings × Option RouteError
  MapRouteToApplication : List Char → List Char → Warnings × Option RouteError
  UnmapRouteFromApplication : List Char → List Char → Warnings × Option RouteError
  CreateRoute : Route → Bool → Route × Warnings × Option RouteError

/-! ## Facts about the string machinery -/

theorem breakAtDot_parts {l : List Char} :
    ∀ {b a : List Char}, breakAtDot l = some (b, a) → l = b ++ '.' :: a ∧ ('.') ∉ b := by
  induction l with
  | nil => intro b a h; simp [breakAtDot] at h
  | cons c cs ih =>
    intro b a h
    by_cases hc : c = '.'
    · subst hc
      simp [breakAtDot] at h
      obtain ⟨rfl, rfl⟩ := h
      exact ⟨rfl, List.not_mem_nil _⟩
    · simp only [breakAtDot, if_neg hc] at h
      cases hbd : breakAtDot cs with
      | none => rw [hbd] at h; exact absurd h (by simp)
      | some p =>
        obtain ⟨b', a'⟩ := p
        rw [hbd] at h
        simp only [Option.some.injEq, Prod.mk.injEq] at h
        obtain ⟨hb, ha⟩ := h
        obtain ⟨hcs, hnb⟩ := ih hbd
        subst hb
        subst ha
        refine ⟨by simp [hcs], ?_⟩
        simp only [List.mem_cons]
        rintro (h1 | h2)
        · exact hc h1.symm
        · exact hnb h2

theorem breakAtDot_length {l b a : List Char} (h : breakAtDot l = some (b, a)) :
    a.length < l.length := by
  obtain ⟨hl, -⟩ := breakAtDot_parts h
  subst hl
  simp [List.length_append]
  omega

/-! ## Domain matching (route.go: `splitHost`, `calculateRoute`) -/

/-- route.go:467-475 `splitHost`: when the url has exactly one dot return
`("", url)`; otherwise `SplitN(url, ".", 2)` and take elements 0 and 1.
With no dot that slice has length 1, so Go panics on index 1: `none`. -/
def splitHost (url : List Char) : Option (List Char × List Char) :=
  if countDot url = 1 then some ([], url)
  else
    match breakAtDot url with
    | none => none
    | some (b, a) => some (b, a)

/-- Lookup in an association list, first match wins (a Go map read, the
list being keyed uniquely or ordered last-insert-first). -/
def lookupC : List (List Char × Domain) → List Char → Option Domain
  | [], _ => none
  | (k, d) :: rest, key => if k = key then some d else lookupC rest key

theorem splitHost_length {url h d : List Char} (hs : splitHost url = some (h, d))
    (hne : h ≠ []) : d.length < url.length := by
  unfold splitHost at hs
  by_cases hc : countDot url = 1
  · rw [if_pos hc] at hs
    simp only [Option.some.injEq, Prod.mk.injEq] at hs
    exact absurd hs.1.symm hne
  · rw [if_neg hc] at hs
    cases hbd : breakAtDot url with
    | none => rw [hbd] at hs; exact absurd hs (by simp)
    | some p =>
      obtain ⟨b, a⟩ := p
      rw [hbd] at hs
      simp only [Option.some.injEq, Prod.mk.injEq] at hs
      obtain ⟨rfl, rfl⟩ := hs
      exact breakAtDot_length hbd

/-- route.go:298-312 `calculateRoute(route, domainCache)`: split the host,
return the cached domain when the whole string is a key, fail with
`DomainNotFoundError` when the remaining host is empty, otherwise recurse
on the part after the first dot and prepend the stripped label (even when
the recursion errored, as the Go code does). `none` models the panic
`splitHost` propagates on dot-less input. -/
def calculateRoute (cache : List (List Char × Domain)) (route : List Char) :
    Option (List (List Char) × Domain × Option RouteError) :=
  match hs : splitHost route with
  | none => none
  | some (host, domain) =>
    match lookupC cache route with
    | some d => some ([], d, none)
    | none =>
      if hh : host = [] then some ([], {}, some (.DomainNotFoundError route))
      else
        match calculateRoute cache domain with
        | none => none
        | some (hosts, foundDomain, err) => some (host :: hosts, foundDomain, err)
termination_by route.length
decreasing_by exact splitHost_length hs hh

/-- Unfolding: dot-less input propagates the `splitHost` panic. -/
theorem calculateRoute_none {cache : List (List Char × Domain)} {route : List Char}
    (h : splitHost route = none) : calculateRoute cache route = none := by
  rw [calculateRoute]
  split
  · rfl
  · simp_all

/-- Unfolding: the whole remaining string is a cache key. -/
theorem calculateRoute_hit {cache : List (List Char × Domain)} {route : List Char}
    {host domain : List Char} {d : Domain} (hs : splitHost route = some (host, domain))
    (hl : lookupC cache route = some d) : calculateRoute cache route = some ([], d, none) := by
  rw [calculateRoute]
  split
  · simp_all
  · rename_i host' domain' heq
    split
    · simp_all
    · simp_all

/-- Unfolding: cache miss with an empty stripped host fails. -/
theorem calculateRoute_notfound {cache : List (List Char × Domain)} {route : List Char}
    {domain : List Char} (hs : splitHost route = some ([], domain))
    (hl : lookupC cache route = none) :
    calculateRoute cache route = some ([], {}, some (.DomainNotFoundError route)) := by
  rw [calculateRoute]
  split
  · simp_all
  · rename_i host' domain' heq
    rw [hs] at heq
    simp only [Option.some.injEq, Prod.mk.injEq] at heq
    obtain ⟨h1, h2⟩ := heq
    split
    · simp_all
    · rw [dif_pos h1.symm]

/-- Unfolding: cache miss with a nonempty stripped host recurses on the
part after the first dot and prepends the stripped label. -/
theorem calculateRoute_step {cache : List (List Char × Domain)} {route : List Char}
    {host domain : List Char} (hs : splitHost route = some (host, domain))
    (hne : host ≠ []) (hl : lookupC cache route = none) :
    calculateRoute cache route =
      match calculateRoute cache domain with
      | none => none
      | some (hosts, foundDomain, err) => some (host :: hosts, foundDomain, err) := by
  rw [calculateRoute]
  split
  · simp_all
  · rename_i host' domain' heq
    rw [hs] at heq
    simp only [Option.some.injEq, Prod.mk.injEq] at heq
    obtain ⟨h1, h2⟩ := heq
    subst h1
    subst h2
    split
    · simp_all
    · rw [dif_neg hne]

/-! ## Candidate domain generation (route.go: `generatePossibleDomains`) -/

/-- route.go:341-348, the per-hostname body of `generatePossibleDomains`
(the spec's `candidateSuffixes`): `count := strings.Count(route, ".")`,
`domains := strings.SplitN(route, ".", count)`, then for each index
`strings.Join(domains[i:], ".")`. -/
def possibleDomainsOf (hostname : List Char) : List (List Char) :=
  let domains := goSplitN (countDot hostname) hostname
  (List.range domains.length).map fun i => hostJoin (domains.drop i)

/-- Insert into a list-as-set, keeping insertion order and dropping
duplicates (the deterministic content of Go's `map[string]interface{}`
used as a set; Go iterates it in unspecified order). -/
def insertUnique (l : List (List Char)) (x : List Char) : List (List Char) :=
  if x ∈ l then l else l ++ [x]

/-! ## URL parsing (route.go: `parseURL`; `net/url` is outside src/) -/

/-- Split at the first occurrence of `t`. -/
def breakAtCh (t : Char) : List Char → Option (List Char × List Char)
  | [] => none
  | c :: cs =>
    if c = t then some ([], cs)
    else
      match breakAtCh t cs with
      | none => none
      | some (b, a) => some (c :: b, a)

/-- Modelled from the spec: the `Actor.startWithProtocol` regexp
(`actor.go`, outside src/) anchored on a recognizable scheme. -/
def startWithProtocol (r : List Char) : Bool :=
  startsWithL "http://".data r || startsWithL "https://".data r ||
  startsWithL "tcp://".data r

/-- Modelled from the spec: stripping a recognizable leading scheme (the
`startWithProtocol.ReplaceAllString(route, "")` of route.go:403). -/
def stripProtocol (r : List Char) : List Char :=
  if startsWithL "http://".data r then r.drop 7
  else if startsWithL "https://".data r then r.drop 8
  else if startsWithL "tcp://".data r then r.drop 6
  else r

def isDigit (c : Char) : Bool := '0' ≤ c && c ≤ '9'

def digitsVal (l : List Char) : Nat :=
  l.foldl (fun acc c => acc * 10 + (c.toNat - 48)) 0

/-- Modelled from the spec: `types.NullInt.ParseStringValue` on the URL's
port component — empty means unset; a non-negative integer sets the value;
anything else is a parse failure. -/
def parsePortStr : Option (List Char) → Option NullInt
  | none => some {}
  | some [] => some {}
  | some ds => if ds.all isDigit then some { Value := (digitsVal ds : Int), IsSet := true } else none

/-- Modelled from the spec: route.go:373-390 `parseURL`, whose generic URI
parsing lives in `net/url` (outside src/). Per spec §4.1: prepend a default
scheme when the raw string lacks one, the path is the request path with a
bare `/` normalized to empty, and the port must parse as a non-negative
integer or the parse fails (`MalformedRouteError`). -/
def parseURL (route : List Char) : Except RouteError (List Char × NullInt × List Char) :=
  let r := if startWithProtocol route then route else ("http://".data ++ route)
  let rest := stripProtocol r
  let (authority, path0) :=
    match breakAtCh '/' rest with
    | none => (rest, [])
    | some (b, a) => (b, '/' :: a)
  let path := if path0 = "/".data then [] else path0
  let (host, portStr) :=
    match breakAtCh ':' authority with
    | none => (authority, none)
    | some (b, a) => (b, some a)
  match parsePortStr portStr with
  | none => .error (.MalformedRouteError route)
  | some port => .ok (host, port, path)

/-- route.go:330-358 `generatePossibleDomains`: parse every raw route to a
hostname (failing fast), then collect every `possibleDomainsOf` suffix into
a set. -/
def collectHostnames : List (List Char) → Except RouteError (List (List Char))
  | [] => .ok []
  | r :: rs =>
    match parseURL r with
    | .error e => .error e
    | .ok (h, _, _) =>
      match collectHostnames rs with
      | .error e => .error e
      | .ok hs => .ok (h :: hs)

def generatePossibleDomains (routes : List (List Char)) :
    Except RouteError (List (List Char)) :=
  match collectHostnames routes with
  | .error e => .error e
  | .ok hostnames =>
    .ok (hostnames.foldl (fun acc h => (possibleDomainsOf h).foldl insertUnique acc) [])

/-! ## Route identity and stringification -/

/-- Modelled from the spec: `v2action.Route.String` (outside src/) — the
route's canonical string `host.domain[:port][path]`, the "normalized string
identity" the comparator uses. -/
def routeString (r : Route) : List Char :=
  (if r.Host = [] then r.Domain.Name else r.Host ++ '.' :: r.Domain.Name) ++
  (if r.Port.IsSet then
    ':' :: (if r.Port.Value < 0 then '-' :: Nat.toDigits 10 r.Port.Value.natAbs
            else Nat.toDigits 10 r.Port.Value.natAbs)
   else []) ++
  r.Path

/-- route.go:392-400 `routeInListByGUID`: membership by GUID equality only. -/
def routeInListByGUID (route : Route) : List Route → Bool
  | [] => false
  | r :: rs => if r.GUID = route.GUID then true else routeInListByGUID route rs

/-- route.go:402-411 `routeInListByName`: strip a leading scheme from the
raw string and return the first existing route whose canonical string
equals it. -/
def routeInListByName (route : List Char) : List Route → Option Route
  | [] => none
  | r :: rs =>
    if routeString r = stripProtocol route then some r else routeInListByName route rs

/-- route.go:413-422 `routeInListBySettings`: the first route agreeing on
host, path, port, space and domain GUID. -/
def routeInListBySettings (route : Route) : List Route → Option Route
  | [] => none
  | r :: rs =>
    if r.Host = route.Host ∧ r.Path = route.Path ∧ r.Port = route.Port ∧
       r.SpaceGUID = route.SpaceGUID ∧ r.Domain.GUID = route.Domain.GUID
    then some r else routeInListBySettings route rs

/-- The element-copying loop of route.go:452-455. -/
def goCopy (l : List Route) : List Route := l.foldl (fun acc r => acc ++ [r]) []

/-- route.go:451-465 `splitExistingRoutes`: copy every existing route into
the cached list, and keep as unknown the raw strings matching none of them
by name. -/
def splitExistingRoutes (routes : List (List Char)) (existingRoutes : List Route) :
    List Route × List (List Char) :=
  (goCopy existingRoutes,
   routes.filter fun route => (routeInListByName route existingRoutes).isNone)

/-! ## Route calculation (route.go: `CalculateRoutes` and helpers) -/

/-- Modelled from the spec: `v2action.Route.Validate` (outside src/), per
the spec's §3 invariants — the path must be empty when the domain is TCP,
and the port must be unset when the domain is HTTP. -/
def routeValidate (r : Route) : Option RouteError :=
  if r.Domain.IsTCP && !(r.Path = []) then some .InvalidTCPRouteSettings
  else if r.Domain.IsHTTP && r.Port.IsSet then some .InvalidHTTPRouteSettings
  else none

/-- route.go:322-328 `findOrReturnPartialRouteWithSettings`: a
`RouteNotFoundError` from the lookup is absorbed, yielding the candidate
(GUID-empty) route. -/
def findOrReturnPartialRouteWithSettings (cl : V2Client) (route : Route) :
    Route × Warnings × Option RouteError :=
  let (cachedRoute, warnings, err) := cl.FindRouteBoundToSpaceWithSettings route
  match err with
  | some .RouteNotFoundError => (route, warnings, none)
  | e => (cachedRoute, warnings, e)

/-- The body of the per-route loop of route.go:79-118 (`CalculateRoutes`):
parse, resolve the domain (translating `DomainNotFoundError` into
`NoMatchingDomainError`), build the candidate route, validate it, and look
it up on the platform. `none` models a panic out of `calculateRoute`. -/
def resolveOne (cl : V2Client) (spaceGUID : List Char)
    (cache : List (List Char × Domain)) (route : List Char) :
    Option (Warnings × Except RouteError Route) :=
  match parseURL route with
  | .error e => some ([], .error e)
  | .ok (root, port, path) =>
    match calculateRoute cache root with
    | none => none
    | some (_, _, some (.DomainNotFoundError _)) =>
      some ([], .error (.NoMatchingDomainError route))
    | some (_, _, some e) => some ([], .error e)
    | some (host, domain, none) =>
      let potentialRoute : Route :=
        { Host := hostJoin host, Domain := domain, Path := path, Port := port,
          SpaceGUID := spaceGUID }
      match routeValidate potentialRoute with
      | some e => some ([], .error e)
      | none =>
        let (calculatedRoute, routeWarnings, routeErr) :=
          findOrReturnPartialRouteWithSettings cl potentialRoute
        match routeErr with
        | some e => some (routeWarnings, .error e)
        | none => some (routeWarnings, .ok calculatedRoute)

/-- The loop of route.go:79-118, accumulating calculated routes and
warnings; on any error the Go code returns `nil` routes and the warnings
collected so far (including the failing call's). -/
def calcRoutesLoop (cl : V2Client) (spaceGUID : List Char)
    (cache : List (List Char × Domain)) :
    List (List Char) → List Route → Warnings →
    Option (List Route × Warnings × Option RouteError)
  | [], acc, w => some (acc, w, none)
  | u :: us, acc, w =>
    match resolveOne cl spaceGUID cache u with
    | none => none
    | some (wu, .error e) => some ([], w ++ wu, some e)
    | some (wu, .ok r) => calcRoutesLoop cl spaceGUID cache us (acc ++ [r]) (w ++ wu)

/-- The Go map `nameToFoundDomain` of route.go:73-77: later entries
overwrite earlier ones, so lookup goes through the reversed list. -/
def buildDomainCache (ds : List Domain) : List (List Char × Domain) :=
  ds.reverse.map fun d => (d.Name, d)

/-- route.go:58-121 `CalculateRoutes`. `none` models the panic on a raw
route whose hostname has no dot. -/
def CalculateRoutes (cl : V2Client) (routes : List (List Char))
    (orgGUID spaceGUID : List Char) (existingRoutes : List Route) :
    Option (List Route × Warnings × Option RouteError) :=
  let (calculatedRoutes, unknownRoutes) := splitExistingRoutes routes existingRoutes
  match generatePossibleDomains unknownRoutes with
  | .error e => some ([], [], some e)
  | .ok possibleDomains =>
    let (foundDomains, warnings, err) :=
      cl.GetDomainsByNameAndOrganization possibleDomains orgGUID
    match err with
    | some e => some ([], warnings, some e)
    | none =>
      calcRoutesLoop cl spaceGUID (buildDomainCache foundDomains)
        unknownRoutes calculatedRoutes warnings

/-! ## Route reconciliation (route.go: `MapRoutes`, `UnmapRoutes`,
`CreateRoutes`) -/

/-- route.go:237-243 `mapRouteToApp`: bind through the client, rewrapping a
`RouteInDifferentSpaceError` with the route's canonical string. -/
def mapRouteToApp (cl : V2Client) (route : Route) (appGUID : List Char) :
    Warnings × Option RouteError :=
  let (warnings, err) := cl.MapRouteToApplication route.GUID appGUID
  match err with
  | some (.RouteInDifferentSpaceError _) =>
    (warnings, some (.RouteInDifferentSpaceError (routeString route)))
  | e => (warnings, e)

/-- The loop of route.go:22-35: skip desired routes already current by
GUID, bind the rest, aborting on the first error. -/
def mapRoutesLoop (cl : V2Client) (appGUID : List Char) (current : List Route) :
    List Route → Bool → Warnings → Bool × Warnings × Option RouteError
  | [], bound, acc => (bound, acc, none)
  | r :: rs, bound, acc =>
    if routeInListByGUID r current then mapRoutesLoop cl appGUID current rs bound acc
    else
      let (w, err) := mapRouteToApp cl r appGUID
      match err with
      | some e => (bound, acc ++ w, some e)
      | none => mapRoutesLoop cl appGUID current rs true (acc ++ w)

/-- route.go:16-40 `MapRoutes`: on a bind error return the zero-value
configuration; on success replace `CurrentRoutes` with `DesiredRoutes`. -/
def MapRoutes (cl : V2Client) (config : ApplicationConfig) :
    ApplicationConfig × Bool × Warnings × Option RouteError :=
  let (bound, w, err) :=
    mapRoutesLoop cl config.DesiredApplication.GUID config.CurrentRoutes
      config.DesiredRoutes false []
  match err with
  | some e => ({}, false, w, some e)
  | none => ({ config with CurrentRoutes := config.DesiredRoutes }, bound, w, none)

/-- The loop of route.go:46-52: unbind every current route, aborting on the
first error. -/
def unmapRoutesLoop (cl : V2Client) (appGUID : List Char) :
    List Route → Warnings → Warnings × Option RouteError
  | [], acc => (acc, none)
  | r :: rs, acc =>
    match cl.UnmapRouteFromApplication r.GUID appGUID with
    | (w, some e) => (acc ++ w, some e)
    | (w, none) => unmapRoutesLoop cl appGUID rs (acc ++ w)

/-- route.go:42-56 `UnmapRoutes`: on an unbind error return the
configuration as passed in; on success clear `CurrentRoutes`. -/
def UnmapRoutes (cl : V2Client) (config : ApplicationConfig) :
    ApplicationConfig × Warnings × Option RouteError :=
  let (w, err) :=
    unmapRoutesLoop cl config.DesiredApplication.GUID config.CurrentRoutes []
  match err with
  | some e => (config, w, some e)
  | none => ({ config with CurrentRoutes := [] }, w, none)

/-- Modelled from the spec: `v2action.Route.RandomTCPPort` (outside src/) —
random port allocation is requested when the route's port is unset and its
domain is TCP. -/
def RandomTCPPort (r : Route) : Bool := r.Domain.IsTCP && !r.Port.IsSet

/-- The loop of route.go:172-189: create every GUID-empty desired route,
keep the rest, aborting on the first creation error. -/
def createRoutesLoop (cl : V2Client) :
    List Route → List Route → Bool → Warnings →
    List Route × Bool × Warnings × Option RouteError
  | [], acc, created, w => (acc, created, w, none)
  | r :: rs, acc, created, w =>
    if r.GUID = [] then
      match cl.CreateRoute r (RandomTCPPort r) with
      | (_, cw, some e) => (acc, created, w ++ cw, some e)
      | (createdRoute, cw, none) => createRoutesLoop cl rs (acc ++ [createdRoute]) true (w ++ cw)
    else createRoutesLoop cl rs (acc ++ [r]) created w

/-- route.go:165-193 `CreateRoutes`: on a creation error return the
zero-value configuration and `true`; on success replace `DesiredRoutes`
with the rebuilt list. -/
def CreateRoutes (cl : V2Client) (config : ApplicationConfig) :
    ApplicationConfig × Bool × Warnings × Option RouteError :=
  let (routes, created, w, err) := createRoutesLoop cl config.DesiredRoutes [] false []
  match err with
  | some e => ({}, true, w, some e)
  | none => ({ config with DesiredRoutes := routes }, created, w, none)

/-! ## Default route synthesis (route.go: `calculateHostname`,
`calculatePath`) -/

/-- route.go:424-449 `sanitize`, the per-character loop: build the
sanitized name and count the letter/digit characters. -/
def sanBody : List Char → List Char × Nat
  | [] => ([], 0)
  | c :: cs =>
    let rest := sanBody cs
    if 'a' ≤ c ∧ c ≤ 'z' then (c :: rest.1, rest.2 + 1)
    else if 'A' ≤ c ∧ c ≤ 'Z' then (Char.ofNat (c.toNat + 32) :: rest.1, rest.2 + 1)
    else if c = ' ' ∨ c = '-' then ('-' :: rest.1, rest.2)
    else if '0' ≤ c ∧ c ≤ '9' then (c :: rest.1, rest.2 + 1)
    else rest

/-- route.go:424-449 `sanitize`: trim whitespace, map the characters, and
return empty unless some letter or digit survived, else trim hyphens. -/
def sanitize (name : List Char) : List Char :=
  let r := sanBody (goTrimSpace name)
  if 0 < r.2 then goTrimDash r.1 else []

/-- route.go:276-296 `calculateHostname`: ordered first-match-wins cases
over the manifest hostname, the no-hostname flag and the domain type. -/
def calculateHostname (manifestApp : ManifestApp) (domain : Domain) :
    Except RouteError (List Char) :=
  let hostname := if manifestApp.Hostname = [] then manifestApp.Name else manifestApp.Hostname
  let sanitizedHostname := sanitize hostname
  if ¬(manifestApp.Hostname = []) ∧ domain.IsTCP then
    .error .HostnameWithTCPDomainError
  else if manifestApp.NoHostname ∧ domain.IsShared ∧ domain.IsHTTP then
    .error .NoHostnameAndSharedDomainError
  else if manifestApp.NoHostname then .ok []
  else if domain.IsHTTP then .ok sanitizedHostname
  else .ok []

/-- route.go:314-320 `calculatePath`. -/
def calculatePath (manifestApp : ManifestApp) (domain : Domain) :
    Except RouteError (List Char) :=
  if ¬(manifestApp.RoutePath = []) ∧ domain.IsTCP then
    .error .RoutePathWithTCPDomainError
  else .ok manifestApp.RoutePath

/-! ## Specification-side characterization of `sanitize` -/

/-- The spec's per-character mapping (§4.3): lowercase letters, digits pass
through; uppercase letters are lowercased; space and hyphen become hyphen;
everything else is dropped. -/
def charMap (c : Char) : Option Char :=
  if 'a' ≤ c ∧ c ≤ 'z' then some c
  else if 'A' ≤ c ∧ c ≤ 'Z' then some (Char.ofNat (c.toNat + 32))
  else if c = ' ' ∨ c = '-' then some '-'
  else if '0' ≤ c ∧ c ≤ '9' then some c
  else none

/-- The spec's "valid" characters: letters or digits. -/
def isValidChar (c : Char) : Bool :=
  decide (('a' ≤ c ∧ c ≤ 'z') ∨ ('A' ≤ c ∧ c ≤ 'Z') ∨ ('0' ≤ c ∧ c ≤ '9'))

/-- The sanitizer as the spec words it (§4.3): trim surrounding whitespace,
map the characters left to right, return empty when no letter or digit
survives, and otherwise trim surrounding hyphens. -/
def specSanitize (name : List Char) : List Char :=
  let t := goTrimSpace name
  if t.countP isValidChar = 0 then [] else goTrimDash (t.filterMap charMap)

theorem sanBody_eq (l : List Char) :
    sanBody l = (l.filterMap charMap, l.countP isValidChar) := by
  induction l with
  | nil => simp [sanBody]
  | cons c cs ih =>
    simp only [sanBody, ih, List.filterMap_cons, List.countP_cons, charMap]
    by_cases h1 : 'a' ≤ c ∧ c ≤ 'z'
    · simp [h1, isValidChar]
    · by_cases h2 : 'A' ≤ c ∧ c ≤ 'Z'
      · simp [h1, h2, isValidChar]
      · by_cases h3 : c = ' ' ∨ c = '-'
        · have hv : isValidChar c = false := by
            simp only [isValidChar, decide_eq_false_iff_not]
            rcases h3 with rfl | rfl <;> simp_all
          simp [h1, h2, h3, hv]
        · by_cases h4 : '0' ≤ c ∧ c ≤ '9'
          · simp [h1, h2, h3, h4, isValidChar]
          · have hv : isValidChar c = false := by
              simp only [isValidChar, decide_eq_false_iff_not]
              tauto
            simp [h1, h2, h3, h4, hv]

/-- C9: for every input string, `sanitize` trims surrounding whitespace,
maps characters left to right (lowercase letters and digits pass through,
uppercase letters are lowercased, space and hyphen become hyphen, all else
is dropped), returns the empty string when no letter or digit survives, and
otherwise returns the accumulated string with leading/trailing hyphens
trimmed; in particular `sanitize " My App! " = "my-app"`,
`sanitize "---" = ""`, and `sanitize "A_B" = "ab"`. -/
theorem sanitize_spec :
    (∀ name : List Char, sanitize name = specSanitize name) ∧
    sanitize " My App! ".data = "my-app".data ∧
    sanitize "---".data = [] ∧
    sanitize "A_B".data = "ab".data := by
  refine ⟨?_, by decide, by decide, by decide⟩
  intro name
  simp only [sanitize, specSanitize, sanBody_eq]
  rcases Nat.eq_zero_or_pos ((goTrimSpace name).countP isValidChar) with h | h
  · simp [h]
  · simp [h, Nat.pos_iff_ne_zero.mp h]

/-! ## Default-route hostname and path cases (C8) -/

/-- C8: default-route hostname and path selection follow ordered
first-match-wins cases: explicit manifest hostname with a TCP domain fails
with `HostnameWithTCPDomainError`; the no-hostname flag with a shared HTTP
domain fails with `NoHostnameAndSharedDomainError`; the no-hostname flag
alone yields an empty hostname; an HTTP domain yields the sanitized
hostname (the explicit manifest hostname if given, else the application
name); otherwise (TCP, no flag) the hostname is empty; an explicit
manifest path with a TCP domain fails with `RoutePathWithTCPDomainError`,
otherwise the manifest path is used verbatim. -/
theorem calculateHostname_calculatePath_cases (app : ManifestApp) (d : Domain) :
    (¬(app.Hostname = []) ∧ d.IsTCP = true →
      calculateHostname app d = .error .HostnameWithTCPDomainError) ∧
    (¬(¬(app.Hostname = []) ∧ d.IsTCP = true) →
      app.NoHostname = true ∧ d.IsShared = true ∧ d.IsHTTP = true →
      calculateHostname app d = .error .NoHostnameAndSharedDomainError) ∧
    (¬(¬(app.Hostname = []) ∧ d.IsTCP = true) →
      ¬(app.NoHostname = true ∧ d.IsShared = true ∧ d.IsHTTP = true) →
      app.NoHostname = true → calculateHostname app d = .ok []) ∧
    (¬(¬(app.Hostname = []) ∧ d.IsTCP = true) →
      ¬(app.NoHostname = true ∧ d.IsShared = true ∧ d.IsHTTP = true) →
      app.NoHostname = false → d.IsHTTP = true →
      calculateHostname app d =
        .ok (sanitize (if app.Hostname = [] then app.Name else app.Hostname))) ∧
    (¬(¬(app.Hostname = []) ∧ d.IsTCP = true) →
      ¬(app.NoHostname = true ∧ d.IsShared = true ∧ d.IsHTTP = true) →
      app.NoHostname = false → d.IsHTTP = false →
      calculateHostname app d = .ok []) ∧
    (¬(app.RoutePath = []) ∧ d.IsTCP = true →
      calculatePath app d = .error .RoutePathWithTCPDomainError) ∧
    (¬(¬(app.RoutePath = []) ∧ d.IsTCP = true) →
      calculatePath app d = .ok app.RoutePath) := by
  refine ⟨?_, ?_, ?_, ?_, ?_, ?_, ?_⟩
  · intro h
    simp only [calculateHostname]
    rw [if_pos (by exact_mod_cast h)]
  · intro h1 h2
    simp only [calculateHostname]
    rw [if_neg (by exact_mod_cast h1), if_pos (by exact_mod_cast h2)]
  · intro h1 h2 h3
    simp only [calculateHostname]
    rw [if_neg (by exact_mod_cast h1), if_neg (by exact_mod_cast h2), if_pos (by exact_mod_cast h3)]
  · intro h1 h2 h3 h4
    simp only [calculateHostname]
    rw [if_neg (by exact_mod_cast h1), if_neg (by exact_mod_cast h2),
      if_neg (by simp [h3]), if_pos (by exact_mod_cast h4)]
  · intro h1 h2 h3 h4
    simp only [calculateHostname]
    rw [if_neg (by exact_mod_cast h1), if_neg (by exact_mod_cast h2),
      if_neg (by simp [h3]), if_neg (by simp [h4])]
  · intro h
    simp only [calculatePath]
    rw [if_pos (by exact_mod_cast h)]
  · intro h
    simp only [calculatePath]
    rw [if_neg (by exact_mod_cast h)]

/-! ## Reconciler loops: attempt lists and their characterizations -/

/-- The bind calls `MapRoutes` makes, in order: one `mapRouteToApp` per
desired route not already current by GUID. -/
def mapAttempts (cl : V2Client) (appGUID : List Char) (current desired : List Route) :
    List (Route × Warnings × Option RouteError) :=
  (desired.filter fun r => !(routeInListByGUID r current)).map
    fun r => (r, mapRouteToApp cl r appGUID)

/-- The unbind calls `UnmapRoutes` makes, in order: one per current route. -/
def unmapAttempts (cl : V2Client) (appGUID : List Char) (current : List Route) :
    List (Route × Warnings × Option RouteError) :=
  current.map fun r => (r, cl.UnmapRouteFromApplication r.GUID appGUID)

/-- The create calls `CreateRoutes` makes, in order: one per GUID-empty
desired route. -/
def createAttempts (cl : V2Client) (desired : List Route) :
    List (Route × Route × Warnings × Option RouteError) :=
  (desired.filter fun r => decide (r.GUID = [])).map
    fun r => (r, cl.CreateRoute r (RandomTCPPort r))

/-- The warnings of a list of bind/unbind attempts, in call order. -/
def attemptWarnings (A : List (Route × Warnings × Option RouteError)) : Warnings :=
  (A.map fun a => a.2.1).join

/-- The warnings of a list of create attempts, in call order. -/
def createWarnings (A : List (Route × Route × Warnings × Option RouteError)) : Warnings :=
  (A.map fun a => a.2.2.1).join

/-- Every list either satisfies a predicate throughout or splits at its
first failure. -/
theorem firstErrSplit {α : Type} (p : α → Bool) (l : List α) :
    (∀ a ∈ l, p a = true) ∨
    ∃ pre x post, l = pre ++ x :: post ∧ (∀ a ∈ pre, p a = true) ∧ p x = false := by
  induction l with
  | nil => left; simp
  | cons a l ih =>
    by_cases hp : p a = true
    · rcases ih with hall | ⟨pre, x, post, hsplit, hpre, hx⟩
      · left
        intro b hb
        rcases List.mem_cons.mp hb with rfl | hb'
        · exact hp
        · exact hall b hb'
      · right
        refine ⟨a :: pre, x, post, by simp [hsplit], ?_, hx⟩
        intro b hb
        rcases List.mem_cons.mp hb with rfl | hb'
        · exact hp
        · exact hpre b hb'
    · right
      exact ⟨[], a, l, rfl, by simp, by simpa using hp⟩

theorem attemptWarnings_nil : attemptWarnings [] = [] := rfl

theorem attemptWarnings_cons (a : Route × Warnings × Option RouteError)
    (A : List (Route × Warnings × Option RouteError)) :
    attemptWarnings (a :: A) = a.2.1 ++ attemptWarnings A := by
  simp [attemptWarnings]

theorem mapRoutesLoop_ok (cl : V2Client) (appGUID : List Char) (current : List Route) :
    ∀ (ds : List Route) (b : Bool) (acc : Warnings),
      (∀ a ∈ mapAttempts cl appGUID current ds, a.2.2 = none) →
      mapRoutesLoop cl appGUID current ds b acc =
        (b || !(mapAttempts cl appGUID current ds).isEmpty,
         acc ++ attemptWarnings (mapAttempts cl appGUID current ds), none) := by
  intro ds
  induction ds with
  | nil => intro b acc _; simp [mapRoutesLoop, mapAttempts, attemptWarnings]
  | cons r rs ih =>
    intro b acc hall
    by_cases hg : routeInListByGUID r current
    · have hA : mapAttempts cl appGUID current (r :: rs) = mapAttempts cl appGUID current rs := by
        simp [mapAttempts, hg]
      rw [hA] at hall
      simp only [mapRoutesLoop, if_pos hg]
      rw [ih b acc hall, hA]
    · have hA : mapAttempts cl appGUID current (r :: rs) =
        (r, mapRouteToApp cl r appGUID) :: mapAttempts cl appGUID current rs := by
        simp [mapAttempts, hg]
      rw [hA] at hall
      have hr : (mapRouteToApp cl r appGUID).2 = none :=
        hall (r, mapRouteToApp cl r appGUID) (by simp)
      simp only [mapRoutesLoop, if_neg hg]
      rcases hcall : mapRouteToApp cl r appGUID with ⟨w, err⟩
      rw [hcall] at hr
      simp only at hr
      subst hr
      have := ih true (acc ++ w) (fun a ha => hall a (by simp [ha]))
      simp only [this, hA, attemptWarnings_cons, hcall, List.isEmpty_cons]
      simp [List.append_assoc]

theorem mapRoutesLoop_err (cl : V2Client) (appGUID : List Char) (current : List Route) :
    ∀ (ds : List Route) (b : Bool) (acc : Warnings) pre x post e,
      mapAttempts cl appGUID current ds = pre ++ x :: post →
      (∀ a ∈ pre, a.2.2 = none) → x.2.2 = some e →
      mapRoutesLoop cl appGUID current ds b acc =
        (b || !pre.isEmpty, acc ++ attemptWarnings pre ++ x.2.1, some e) := by
  intro ds
  induction ds with
  | nil =>
    intro b acc pre x post e hsplit _ _
    simp [mapAttempts] at hsplit
  | cons r rs ih =>
    intro b acc pre x post e hsplit hpre hx
    by_cases hg : routeInListByGUID r current
    · have hA : mapAttempts cl appGUID current (r :: rs) = mapAttempts cl appGUID current rs := by
        simp [mapAttempts, hg]
      rw [hA] at hsplit
      simp only [mapRoutesLoop, if_pos hg]
      exact ih b acc pre x post e hsplit hpre hx
    · have hA : mapAttempts cl appGUID current (r :: rs) =
        (r, mapRouteToApp cl r appGUID) :: mapAttempts cl appGUID current rs := by
        simp [mapAttempts, hg]
      rw [hA] at hsplit
      cases pre with
      | nil =>
        simp only [List.nil_append, List.cons.injEq] at hsplit
        obtain ⟨hx', -⟩ := hsplit
        subst hx'
        simp only [mapRoutesLoop, if_neg hg]
        rcases hcall : mapRouteToApp cl r appGUID with ⟨w, err⟩
        rw [hcall] at hx
        simp only at hx
        subst hx
        simp [attemptWarnings_nil, hcall]
      | cons p pre' =>
        have hp : p = (r, mapRouteToApp cl r appGUID) := by
          have := congrArg (fun l => l.head?) hsplit
          simpa using this.symm
        have htail : mapAttempts cl appGUID current rs = pre' ++ x :: post := by
          have := congrArg List.tail hsplit
          simpa using this
        have hpok : (mapRouteToApp cl r appGUID).2 = none := by
          have := hpre p (by simp)
          rw [hp] at this
          exact this
        simp only [mapRoutesLoop, if_neg hg]
        rcases hcall : mapRouteToApp cl r appGUID with ⟨w, err⟩
        rw [hcall] at hpok
        simp only at hpok
        subst hpok
        have := ih true (acc ++ w) pre' x post e htail
          (fun a ha => hpre a (by simp [ha])) hx
        rw [this]
        rw [hp]
        simp [attemptWarnings_cons, hcall, List.append_assoc]

theorem mapAttempts_isEmpty (cl : V2Client) (appGUID : List Char)
    (current : List Route) (ds : List Route) :
    (mapAttempts cl appGUID current ds).isEmpty =
      !(ds.any fun r => !(routeInListByGUID r current)) := by
  induction ds with
  | nil => simp [mapAttempts]
  | cons r rs ih =>
    by_cases hg : routeInListByGUID r current
    · have hA : mapAttempts cl appGUID current (r :: rs) = mapAttempts cl appGUID current rs := by
        simp [mapAttempts, hg]
      simp [hA, ih, hg]
    · have hA : mapAttempts cl appGUID current (r :: rs) =
        (r, mapRouteToApp cl r appGUID) :: mapAttempts cl appGUID current rs := by
        simp [mapAttempts, hg]
      simp [hA, hg]

/-- C4: `MapRoutes`, on the first failed bind call, aborts immediately and
returns the zero-value configuration together with the warnings collected
so far and the error; on success it returns the configuration with
`CurrentRoutes` replaced in full by `DesiredRoutes` and a boolean reporting
whether at least one new binding was made. -/
theorem MapRoutes_spec (cl : V2Client) (config : ApplicationConfig) :
    (∃ e pre x post,
      mapAttempts cl config.DesiredApplication.GUID config.CurrentRoutes config.DesiredRoutes =
          pre ++ x :: post ∧
        (∀ a ∈ pre, a.2.2 = none) ∧ x.2.2 = some e ∧
        MapRoutes cl config = ({}, false, attemptWarnings pre ++ x.2.1, some e)) ∨
    ((∀ a ∈ mapAttempts cl config.DesiredApplication.GUID config.CurrentRoutes
          config.DesiredRoutes, a.2.2 = none) ∧
      MapRoutes cl config =
        ({ config with CurrentRoutes := config.DesiredRoutes },
         config.DesiredRoutes.any (fun r => !(routeInListByGUID r config.CurrentRoutes)),
         attemptWarnings (mapAttempts cl config.DesiredApplication.GUID config.CurrentRoutes
           config.DesiredRoutes),
         none)) := by
  rcases firstErrSplit (fun a => (a.2.2).isNone)
      (mapAttempts cl config.DesiredApplication.GUID config.CurrentRoutes
        config.DesiredRoutes) with hall | ⟨pre, x, post, hsplit, hpre, hx⟩
  · right
    have hall' : ∀ a ∈ mapAttempts cl config.DesiredApplication.GUID config.CurrentRoutes
        config.DesiredRoutes, a.2.2 = none :=
      fun a ha => Option.isNone_iff_eq_none.mp (hall a ha)
    refine ⟨hall', ?_⟩
    simp only [MapRoutes]
    rw [mapRoutesLoop_ok cl config.DesiredApplication.GUID config.CurrentRoutes
      config.DesiredRoutes false [] hall']
    simp [mapAttempts_isEmpty]
  · left
    obtain ⟨e, he⟩ : ∃ e, x.2.2 = some e := by
      cases hxx : x.2.2 with
      | none => rw [hxx] at hx; simp at hx
      | some e => exact ⟨e, rfl⟩
    have hpre' : ∀ a ∈ pre, a.2.2 = none :=
      fun a ha => Option.isNone_iff_eq_none.mp (hpre a ha)
    refine ⟨e, pre, x, post, hsplit, hpre', he, ?_⟩
    simp only [MapRoutes]
    rw [mapRoutesLoop_err cl config.DesiredApplication.GUID config.CurrentRoutes
      config.DesiredRoutes false [] pre x post e hsplit hpre' he]
    simp

theorem mapRoutesLoop_skip (cl : V2Client) (appGUID : List Char) (current : List Route) :
    ∀ (ds : List Route) (b : Bool) (acc : Warnings),
      (∀ r ∈ ds, routeInListByGUID r current = true) →
      mapRoutesLoop cl appGUID current ds b acc = (b, acc, none) := by
  intro ds
  induction ds with
  | nil => intro b acc _; rfl
  | cons r rs ih =>
    intro b acc h
    have hg : routeInListByGUID r current = true := h r (by simp)
    simp only [mapRoutesLoop, if_pos hg]
    exact ih b acc fun a ha => h a (by simp [ha])

theorem routeInListByGUID_self {r : Route} : ∀ {rs : List Route}, r ∈ rs →
    routeInListByGUID r rs = true := by
  intro rs
  induction rs with
  | nil => intro h; simp at h
  | cons a as ih =>
    intro h
    rcases List.mem_cons.mp h with rfl | h'
    · simp [routeInListByGUID]
    · simp only [routeInListByGUID]
      by_cases hg : a.GUID = r.GUID
      · simp [hg]
      · simp [hg, ih h']

/-- C7: `MapRoutes` is idempotent with respect to bindings: for every
configuration whose desired routes are all already present by GUID in the
current routes, calling it (once or twice) performs zero bind calls and
reports `anyNewBindingMade = false`; membership is decided by GUID
equality only, never by structural route equality. -/
theorem MapRoutes_idempotent (cl : V2Client) (config : ApplicationConfig)
    (h : ∀ r ∈ config.DesiredRoutes, routeInListByGUID r config.CurrentRoutes = true) :
    mapAttempts cl config.DesiredApplication.GUID config.CurrentRoutes
        config.DesiredRoutes = [] ∧
    MapRoutes cl config =
      ({ config with CurrentRoutes := config.DesiredRoutes }, false, [], none) ∧
    MapRoutes cl { config with CurrentRoutes := config.DesiredRoutes } =
      ({ config with CurrentRoutes := config.DesiredRoutes }, false, [], none) := by
  refine ⟨?_, ?_, ?_⟩
  · simp only [mapAttempts]
    rw [List.filter_eq_nil.mpr (by intro a ha; simp [h a ha])]
    rfl
  · simp only [MapRoutes]
    rw [mapRoutesLoop_skip cl config.DesiredApplication.GUID config.CurrentRoutes
      config.DesiredRoutes false [] h]
  · simp only [MapRoutes]
    rw [mapRoutesLoop_skip cl config.DesiredApplication.GUID config.DesiredRoutes
      config.DesiredRoutes false [] (fun r hr => routeInListByGUID_self hr)]

theorem unmapRoutesLoop_ok (cl : V2Client) (appGUID : List Char) :
    ∀ (ds : List Route) (acc : Warnings),
      (∀ a ∈ unmapAttempts cl appGUID ds, a.2.2 = none) →
      unmapRoutesLoop cl appGUID ds acc =
        (acc ++ attemptWarnings (unmapAttempts cl appGUID ds), none) := by
  intro ds
  induction ds with
  | nil => intro acc _; simp [unmapRoutesLoop, unmapAttempts, attemptWarnings]
  | cons r rs ih =>
    intro acc hall
    have hA : unmapAttempts cl appGUID (r :: rs) =
        (r, cl.UnmapRouteFromApplication r.GUID appGUID) :: unmapAttempts cl appGUID rs := by
      simp [unmapAttempts]
    rw [hA] at hall
    have hr : (cl.UnmapRouteFromApplication r.GUID appGUID).2 = none :=
      hall (r, cl.UnmapRouteFromApplication r.GUID appGUID) (by simp)
    rcases hcall : cl.UnmapRouteFromApplication r.GUID appGUID with ⟨w, err⟩
    rw [hcall] at hr
    simp only at hr
    subst hr
    have hih := ih (acc ++ w) (fun a ha => hall a (by simp [ha]))
    simp [unmapRoutesLoop, hcall, hA, attemptWarnings_cons, hih, List.append_assoc]

theorem unmapRoutesLoop_err (cl : V2Client) (appGUID : List Char) :
    ∀ (ds : List Route) (acc : Warnings) pre x post e,
      unmapAttempts cl appGUID ds = pre ++ x :: post →
      (∀ a ∈ pre, a.2.2 = none) → x.2.2 = some e →
      unmapRoutesLoop cl appGUID ds acc =
        (acc ++ attemptWarnings pre ++ x.2.1, some e) := by
  intro ds
  induction ds with
  | nil =>
    intro acc pre x post e hsplit _ _
    simp [unmapAttempts] at hsplit
  | cons r rs ih =>
    intro acc pre x post e hsplit hpre hx
    have hA : unmapAttempts cl appGUID (r :: rs) =
        (r, cl.UnmapRouteFromApplication r.GUID appGUID) :: unmapAttempts cl appGUID rs := by
      simp [unmapAttempts]
    rw [hA] at hsplit
    cases pre with
    | nil =>
      simp only [List.nil_append, List.cons.injEq] at hsplit
      obtain ⟨hx', -⟩ := hsplit
      subst hx'
      rcases hcall : cl.UnmapRouteFromApplication r.GUID appGUID with ⟨w, err⟩
      rw [hcall] at hx
      simp only at hx
      subst hx
      simp [unmapRoutesLoop, attemptWarnings_nil, hcall]
    | cons p pre' =>
      have hp : p = (r, cl.UnmapRouteFromApplication r.GUID appGUID) := by
        have := congrArg (fun l => l.head?) hsplit
        simpa using this.symm
      have htail : unmapAttempts cl appGUID rs = pre' ++ x :: post := by
        have := congrArg List.tail hsplit
        simpa using this
      have hpok : (cl.UnmapRouteFromApplication r.GUID appGUID).2 = none := by
        have := hpre p (by simp)
        rw [hp] at this
        exact this
      rcases hcall : cl.UnmapRouteFromApplication r.GUID appGUID with ⟨w, err⟩
      rw [hcall] at hpok
      simp only at hpok
      subst hpok
      have hih := ih (acc ++ w) pre' x post e htail
        (fun a ha => hpre a (by simp [ha])) hx
      rw [hp]
      simp [unmapRoutesLoop, hcall, hih, attemptWarnings_cons, List.append_assoc]

/-- C5: `UnmapRoutes` unbinds every current route one at a time in input
order; if an unbind call fails it returns the configuration unchanged (all
current routes retained), the error, and the warnings of the calls already
made; on full success it returns the configuration with `CurrentRoutes`
cleared to empty. -/
theorem UnmapRoutes_spec (cl : V2Client) (config : ApplicationConfig) :
    (∃ e pre x post,
      unmapAttempts cl config.DesiredApplication.GUID config.CurrentRoutes =
          pre ++ x :: post ∧
        (∀ a ∈ pre, a.2.2 = none) ∧ x.2.2 = some e ∧
        UnmapRoutes cl config = (config, attemptWarnings pre ++ x.2.1, some e)) ∨
    ((∀ a ∈ unmapAttempts cl config.DesiredApplication.GUID config.CurrentRoutes,
        a.2.2 = none) ∧
      UnmapRoutes cl config =
        ({ config with CurrentRoutes := [] },
         attemptWarnings (unmapAttempts cl config.DesiredApplication.GUID
           config.CurrentRoutes),
         none)) := by
  rcases firstErrSplit (fun a => (a.2.2).isNone)
      (unmapAttempts cl config.DesiredApplication.GUID config.CurrentRoutes)
    with hall | ⟨pre, x, post, hsplit, hpre, hx⟩
  · right
    have hall' : ∀ a ∈ unmapAttempts cl config.DesiredApplication.GUID
        config.CurrentRoutes, a.2.2 = none :=
      fun a ha => Option.isNone_iff_eq_none.mp (hall a ha)
    refine ⟨hall', ?_⟩
    simp only [UnmapRoutes]
    rw [unmapRoutesLoop_ok cl config.DesiredApplication.GUID config.CurrentRoutes
      [] hall']
    simp
  · left
    obtain ⟨e, he⟩ : ∃ e, x.2.2 = some e := by
      cases hxx : x.2.2 with
      | none => rw [hxx] at hx; simp at hx
      | some e => exact ⟨e, rfl⟩
    have hpre' : ∀ a ∈ pre, a.2.2 = none :=
      fun a ha => Option.isNone_iff_eq_none.mp (hpre a ha)
    refine ⟨e, pre, x, post, hsplit, hpre', he, ?_⟩
    simp only [UnmapRoutes]
    rw [unmapRoutesLoop_err cl config.DesiredApplication.GUID config.CurrentRoutes
      [] pre x post e hsplit hpre' he]
    simp

theorem createWarnings_nil : createWarnings [] = [] := rfl

theorem createWarnings_cons (a : Route × Route × Warnings × Option RouteError)
    (A : List (Route × Route × Warnings × Option RouteError)) :
    createWarnings (a :: A) = a.2.2.1 ++ createWarnings A := by
  simp [createWarnings]

theorem createRoutesLoop_ok (cl : V2Client) :
    ∀ (ds acc : List Route) (created : Bool) (w : Warnings),
      (∀ a ∈ createAttempts cl ds, a.2.2.2 = none) →
      createRoutesLoop cl ds acc created w =
        (acc ++ ds.map (fun r =>
            if r.GUID = [] then (cl.CreateRoute r (RandomTCPPort r)).1 else r),
         created || ds.any (fun r => decide (r.GUID = [])),
         w ++ createWarnings (createAttempts cl ds), none) := by
  intro ds
  induction ds with
  | nil => intro acc created w _; simp [createRoutesLoop, createAttempts, createWarnings]
  | cons r rs ih =>
    intro acc created w hall
    by_cases hg : r.GUID = []
    · have hA : createAttempts cl (r :: rs) =
          (r, cl.CreateRoute r (RandomTCPPort r)) :: createAttempts cl rs := by
        simp [createAttempts, hg]
      rw [hA] at hall
      have hr : (cl.CreateRoute r (RandomTCPPort r)).2.2 = none :=
        hall (r, cl.CreateRoute r (RandomTCPPort r)) (by simp)
      rcases hcall : cl.CreateRoute r (RandomTCPPort r) with ⟨cr, cw, err⟩
      rw [hcall] at hr
      simp only at hr
      subst hr
      have hih := ih (acc ++ [cr]) true (w ++ cw) (fun a ha => hall a (by simp [ha]))
      simp [createRoutesLoop, hg, hcall, hA, hih, createWarnings_cons,
        List.append_assoc]
    · have hA : createAttempts cl (r :: rs) = createAttempts cl rs := by
        simp [createAttempts, hg]
      rw [hA] at hall
      have hih := ih (acc ++ [r]) created w hall
      simp [createRoutesLoop, hg, hA, hih, List.append_assoc]

theorem createRoutesLoop_err (cl : V2Client) :
    ∀ (ds acc : List Route) (created : Bool) (w : Warnings) pre x post e,
      createAttempts cl ds = pre ++ x :: post →
      (∀ a ∈ pre, a.2.2.2 = none) → x.2.2.2 = some e →
      ∃ acc' created', createRoutesLoop cl ds acc created w =
        (acc', created', w ++ createWarnings pre ++ x.2.2.1, some e) := by
  intro ds
  induction ds with
  | nil =>
    intro acc created w pre x post e hsplit _ _
    simp [createAttempts] at hsplit
  | cons r rs ih =>
    intro acc created w pre x post e hsplit hpre hx
    by_cases hg : r.GUID = []
    · have hA : createAttempts cl (r :: rs) =
          (r, cl.CreateRoute r (RandomTCPPort r)) :: createAttempts cl rs := by
        simp [createAttempts, hg]
      rw [hA] at hsplit
      cases pre with
      | nil =>
        simp only [List.nil_append, List.cons.injEq] at hsplit
        obtain ⟨hx', -⟩ := hsplit
        subst hx'
        rcases hcall : cl.CreateRoute r (RandomTCPPort r) with ⟨cr, cw, err⟩
        rw [hcall] at hx
        simp only at hx
        subst hx
        exact ⟨acc, created, by simp [createRoutesLoop, hg, hcall, createWarnings_nil]⟩
      | cons p pre' =>
        have hp : p = (r, cl.CreateRoute r (RandomTCPPort r)) := by
          have := congrArg (fun l => l.head?) hsplit
          simpa using this.symm
        have htail : createAttempts cl rs = pre' ++ x :: post := by
          have := congrArg List.tail hsplit
          simpa using this
        have hpok : (cl.CreateRoute r (RandomTCPPort r)).2.2 = none := by
          have := hpre p (by simp)
          rw [hp] at this
          exact this
        rcases hcall : cl.CreateRoute r (RandomTCPPort r) with ⟨cr, cw, err⟩
        rw [hcall] at hpok
        simp only at hpok
        subst hpok
        obtain ⟨acc', created', heq⟩ := ih (acc ++ [cr]) true (w ++ cw) pre' x post e
          htail (fun a ha => hpre a (by simp [ha])) hx
        refine ⟨acc', created', ?_⟩
        rw [hp]
        simp [createRoutesLoop, hg, hcall, heq, createWarnings_cons, List.append_assoc]
    · have hA : createAttempts cl (r :: rs) = createAttempts cl rs := by
        simp [createAttempts, hg]
      rw [hA] at hsplit
      obtain ⟨acc', created', heq⟩ := ih (acc ++ [r]) created w pre x post e
        hsplit hpre hx
      exact ⟨acc', created', by simp [createRoutesLoop, hg, heq]⟩

/-- C6: `CreateRoutes` issues a create call for exactly the desired routes
whose GUID is empty (requesting random port allocation when the route's
port is unset and its domain is TCP), replacing each in the output sequence
with the client-returned route, while routes with a non-empty GUID pass
through unchanged; on the first creation failure it returns the zero-value
configuration, `anyCreated = true`, the accumulated warnings and the
error. -/
theorem CreateRoutes_spec (cl : V2Client) (config : ApplicationConfig) :
    (∃ e pre x post,
      createAttempts cl config.DesiredRoutes = pre ++ x :: post ∧
        (∀ a ∈ pre, a.2.2.2 = none) ∧ x.2.2.2 = some e ∧
        CreateRoutes cl config = ({}, true, createWarnings pre ++ x.2.2.1, some e)) ∨
    ((∀ a ∈ createAttempts cl config.DesiredRoutes, a.2.2.2 = none) ∧
      CreateRoutes cl config =
        ({ config with DesiredRoutes := config.DesiredRoutes.map fun r =>
             if r.GUID = [] then (cl.CreateRoute r (RandomTCPPort r)).1 else r },
         config.DesiredRoutes.any (fun r => decide (r.GUID = [])),
         createWarnings (createAttempts cl config.DesiredRoutes), none)) := by
  rcases firstErrSplit (fun a => (a.2.2.2).isNone) (createAttempts cl config.DesiredRoutes)
    with hall | ⟨pre, x, post, hsplit, hpre, hx⟩
  · right
    have hall' : ∀ a ∈ createAttempts cl config.DesiredRoutes, a.2.2.2 = none :=
      fun a ha => Option.isNone_iff_eq_none.mp (hall a ha)
    refine ⟨hall', ?_⟩
    simp only [CreateRoutes]
    rw [createRoutesLoop_ok cl config.DesiredRoutes [] false [] hall']
    simp
  · left
    obtain ⟨e, he⟩ : ∃ e, x.2.2.2 = some e := by
      cases hxx : x.2.2.2 with
      | none => rw [hxx] at hx; simp at hx
      | some e => exact ⟨e, rfl⟩
    have hpre' : ∀ a ∈ pre, a.2.2.2 = none :=
      fun a ha => Option.isNone_iff_eq_none.mp (hpre a ha)
    refine ⟨e, pre, x, post, hsplit, hpre', he, ?_⟩
    obtain ⟨acc', created', heq⟩ := createRoutesLoop_err cl config.DesiredRoutes
      [] false [] pre x post e hsplit hpre' he
    simp only [CreateRoutes]
    rw [heq]
    simp

/-! ## Dot-delimited suffixes -/

/-- `s` is a dot-delimited suffix of `h`: the whole string, or everything
after some dot. -/
def DotSuffix (s h : List Char) : Prop := s = h ∨ ∃ pre, h = pre ++ '.' :: s

/-- A candidate suffix: a dot-delimited suffix containing at least one dot
itself (at least two labels). -/
def CandSuffix (s h : List Char) : Prop := DotSuffix s h ∧ 1 ≤ countDot s

theorem countDot_append (xs ys : List Char) :
    countDot (xs ++ ys) = countDot xs + countDot ys := by
  induction xs with
  | nil => simp [countDot]
  | cons c cs ih => simp [countDot, ih]; omega

theorem countDot_eq_zero_of_not_mem {b : List Char} (h : ('.') ∉ b) : countDot b = 0 := by
  induction b with
  | nil => rfl
  | cons c cs ih =>
    simp only [List.mem_cons, not_or] at h
    have hc : ¬c = '.' := fun hh => h.1 hh.symm
    simp [countDot, hc, ih h.2]

theorem countDot_split (pre s : List Char) :
    countDot (pre ++ '.' :: s) = countDot pre + countDot s + 1 := by
  rw [countDot_append]
  simp [countDot]
  omega

theorem breakAtDot_none_iff (l : List Char) :
    breakAtDot l = none ↔ countDot l = 0 := by
  induction l with
  | nil => simp [breakAtDot, countDot]
  | cons c cs ih =>
    by_cases hc : c = '.'
    · subst hc; simp [breakAtDot, countDot]
    · simp only [breakAtDot, if_neg hc, countDot, if_neg hc]
      cases hbd : breakAtDot cs with
      | none => simpa [hbd] using ih
      | some p => obtain ⟨b, a⟩ := p; simpa [hbd] using ih

theorem dotSuffix_length {s h : List Char} (hs : DotSuffix s h) : s.length ≤ h.length := by
  rcases hs with rfl | ⟨pre, rfl⟩
  · exact le_refl _
  · simp [List.length_append]
    omega

/-- Splitting a list at a dot is determined up to the first dot: two
decompositions with the first one's prefix dot-free either agree or the
second one splits further right. -/
theorem split_at_first : ∀ (b1 a1 b2 a2 : List Char),
    b1 ++ '.' :: a1 = b2 ++ '.' :: a2 → ('.') ∉ b1 →
    (b2 = b1 ∧ a2 = a1) ∨ ∃ mid, b2 = b1 ++ '.' :: mid ∧ a1 = mid ++ '.' :: a2 := by
  intro b1
  induction b1 with
  | nil =>
    intro a1 b2 a2 h _
    cases b2 with
    | nil =>
      simp only [List.nil_append, List.cons.injEq] at h
      exact Or.inl ⟨rfl, h.2.symm⟩
    | cons c b2' =>
      simp only [List.nil_append, List.cons_append, List.cons.injEq] at h
      exact Or.inr ⟨b2', by simp [h.1.symm], h.2⟩
  | cons c b1' ih =>
    intro a1 b2 a2 h hnb
    simp only [List.mem_cons, not_or] at hnb
    cases b2 with
    | nil =>
      simp only [List.cons_append, List.nil_append, List.cons.injEq] at h
      exact absurd h.1 (fun hc => hnb.1 hc.symm)
    | cons c2 b2' =>
      simp only [List.cons_append, List.cons.injEq] at h
      obtain ⟨rfl, h2⟩ := h
      rcases ih a1 b2' a2 h2 hnb.2 with ⟨rfl, rfl⟩ | ⟨mid, hb, ha⟩
      · exact Or.inl ⟨rfl, rfl⟩
      · exact Or.inr ⟨mid, by simp [hb], ha⟩

/-- Candidate suffixes transfer across stripping the first (dot-free)
label. -/
theorem cand_transfer {host rest route : List Char} (hre : route = host ++ '.' :: rest)
    (hnb : ('.') ∉ host) (s : List Char) :
    CandSuffix s route ↔ s = route ∨ CandSuffix s rest := by
  constructor
  · rintro ⟨hds, hc⟩
    rcases hds with rfl | ⟨pre, hpre⟩
    · exact Or.inl rfl
    · rw [hre] at hpre
      rcases split_at_first host rest pre s hpre hnb with ⟨rfl, rfl⟩ | ⟨mid, hb, ha⟩
      · exact Or.inr ⟨Or.inl rfl, hc⟩
      · exact Or.inr ⟨Or.inr ⟨mid, ha⟩, hc⟩
  · rintro (rfl | ⟨hds, hc⟩)
    · refine ⟨Or.inl rfl, ?_⟩
      rw [hre, countDot_split]
      omega
    · rcases hds with rfl | ⟨pre, hpre⟩
      · exact ⟨Or.inr ⟨host, hre⟩, hc⟩
      · refine ⟨Or.inr ⟨host ++ '.' :: pre, ?_⟩, hc⟩
        rw [hre, hpre]
        simp

/-! ## Labels and the no-empty-label condition -/

theorem labelsAux_spec : ∀ (l cur : List Char),
    labelsAux cur l =
      match breakAtDot l with
      | none => [cur.reverse ++ l]
      | some (b, a) => (cur.reverse ++ b) :: labelsOf a := by
  intro l
  induction l with
  | nil => intro cur; simp [labelsAux, breakAtDot]
  | cons c cs ih =>
    intro cur
    by_cases hc : c = '.'
    · subst hc
      simp [labelsAux, breakAtDot, labelsOf]
    · simp only [labelsAux, if_neg hc, breakAtDot, ih (c :: cur)]
      cases hbd : breakAtDot cs with
      | none => simp
      | some p => obtain ⟨b, a⟩ := p; simp

theorem labelsOf_none {l : List Char} (h : breakAtDot l = none) : labelsOf l = [l] := by
  rw [labelsOf, labelsAux_spec, h]
  simp

theorem labelsOf_some {l b a : List Char} (h : breakAtDot l = some (b, a)) :
    labelsOf l = b :: labelsOf a := by
  rw [labelsOf, labelsAux_spec, h]
  simp

/-- A well-formed dotted hostname: none of its dot-separated labels is
empty. -/
def GoodLabels (l : List Char) : Prop := ∀ x ∈ labelsOf l, x ≠ []

instance goodLabelsDec (l : List Char) : Decidable (GoodLabels l) :=
  List.decidableBAll (fun x => x ≠ []) (labelsOf l)

/-! ## C1: the resolution algorithm finds the longest matching candidate
suffix -/

/-- What `calculateRoute` returns, characterized against the set of
candidate suffixes: the result exists (no panic), its host labels joined
with the matched suffix reassemble the route, and either the matched
suffix is in the cache with every longer candidate absent, or no candidate
is in the cache and the error names the shortest (two-label) candidate. -/
def ResolveSpec (cache : List (List Char × Domain)) (route : List Char) : Prop :=
  ∃ labels d err, calculateRoute cache route = some (labels, d, err) ∧
    ∃ sfx, route = hostJoin (labels ++ [sfx]) ∧ 1 ≤ countDot sfx ∧
      (∀ l ∈ labels, countDot l = 0) ∧
      ((err = none ∧ lookupC cache sfx = some d ∧
         ∀ s, CandSuffix s route → sfx.length < s.length → lookupC cache s = none) ∨
       (err = some (.DomainNotFoundError sfx) ∧ d = {} ∧ countDot sfx = 1 ∧
         ∀ s, CandSuffix s route → lookupC cache s = none))

/-- C1 (amended): for every hostname containing at least one dot and no
empty label, and every domain cache, `calculateRoute` resolves to the
domain whose name is the longest candidate suffix (a dot-delimited suffix
with at least two labels) present in the cache, with the stripped labels
returned in order; when no candidate suffix is in the cache it fails with
`DomainNotFoundError`. Single-label suffixes are never considered. -/
theorem calculateRoute_longest_suffix (cache : List (List Char × Domain))
    (route : List Char) (h1 : 1 ≤ countDot route) (h2 : GoodLabels route) :
    ResolveSpec cache route := by
  obtain ⟨host, rest, hbd⟩ : ∃ b a, breakAtDot route = some (b, a) := by
    cases hb : breakAtDot route with
    | none => exact absurd ((breakAtDot_none_iff route).mp hb) (by omega)
    | some p => exact ⟨p.1, p.2, by simp [hb]⟩
  obtain ⟨hre, hnb⟩ := breakAtDot_parts hbd
  have hcount : countDot route = countDot rest + 1 := by
    rw [hre, countDot_split, countDot_eq_zero_of_not_mem hnb]
    omega
  cases hlk : lookupC cache route with
  | some d =>
    obtain ⟨⟨hh, dd⟩, hsh⟩ : ∃ pp, splitHost route = some pp := by
      unfold splitHost
      by_cases hc1 : countDot route = 1
      · exact ⟨([], route), by simp [hc1]⟩
      · rw [if_neg hc1, hbd]
        exact ⟨(host, rest), rfl⟩
    refine ⟨[], d, none, calculateRoute_hit hsh hlk, route, by simp [hostJoin], h1,
      by simp, Or.inl ⟨rfl, hlk, ?_⟩⟩
    intro s hs hlen
    exact absurd (dotSuffix_length hs.1) (by omega)
  | none =>
    by_cases hc1 : countDot route = 1
    · have hsh : splitHost route = some ([], route) := by
        unfold splitHost
        rw [if_pos hc1]
      refine ⟨[], {}, some (.DomainNotFoundError route), calculateRoute_notfound hsh hlk,
        route, by simp [hostJoin], h1, by simp, Or.inr ⟨rfl, rfl, hc1, ?_⟩⟩
      intro s hs
      rcases hs.1 with rfl | ⟨pre, hpre⟩
      · exact hlk
      · exfalso
        have hcs := hs.2
        have : countDot route = countDot pre + countDot s + 1 := by
          rw [hpre, countDot_split]
        omega
    · have hsh : splitHost route = some (host, rest) := by
        unfold splitHost
        rw [if_neg hc1, hbd]
    -- the first label is nonempty and the remainder is well formed
      have hlab := labelsOf_some hbd
      have hhne : host ≠ [] := h2 host (by rw [hlab]; simp)
      have hgrest : GoodLabels rest := fun x hx => h2 x (by rw [hlab]; simp [hx])
      have hrc : 1 ≤ countDot rest := by omega
      obtain ⟨labels, d, err, hcr, sfx, hjoin, hsfx, hlbl, hbranch⟩ :=
        calculateRoute_longest_suffix cache rest hrc hgrest
      have hstep := calculateRoute_step hsh hhne hlk
      rw [hcr] at hstep
      refine ⟨host :: labels, d, err, hstep, sfx, ?_, hsfx, ?_, ?_⟩
      · have hne2 : labels ++ [sfx] ≠ [] := by simp
        rw [List.cons_append]
        cases hll : labels ++ [sfx] with
        | nil => exact absurd hll hne2
        | cons y ys =>
          rw [← hll]
          show route = hostJoin (host :: (labels ++ [sfx]))
          rw [hll]
          show route = host ++ '.' :: hostJoin (y :: ys)
          rw [← hll, ← hjoin, ← hre]
      · intro l hl
        rcases List.mem_cons.mp hl with rfl | hl'
        · exact countDot_eq_zero_of_not_mem hnb
        · exact hlbl l hl'
      · rcases hbranch with ⟨herr, hfound, hmax⟩ | ⟨herr, hd, hc, hmiss⟩
        · refine Or.inl ⟨herr, hfound, ?_⟩
          intro s hs hlen
          rcases (cand_transfer hre hnb s).mp hs with rfl | hs'
          · exact hlk
          · exact hmax s hs' hlen
        · refine Or.inr ⟨herr, hd, hc, ?_⟩
          intro s hs
          rcases (cand_transfer hre hnb s).mp hs with rfl | hs'
          · exact hlk
          · exact hmiss s hs'
termination_by route.length
decreasing_by exact breakAtDot_length hbd

/-! ## C2: the generated candidate domains are exactly the candidate
suffixes -/

theorem hostJoin_cons (x : List Char) {ys : List (List Char)} (h : ys ≠ []) :
    hostJoin (x :: ys) = x ++ '.' :: hostJoin ys := by
  cases ys with
  | nil => exact absurd rfl h
  | cons y ys' => rfl

theorem goSplitN_ne_nil {n : Nat} (h : 1 ≤ n) (l : List Char) : goSplitN n l ≠ [] := by
  match n, h with
  | 1, _ => simp [goSplitN]
  | n + 2, _ =>
    simp only [goSplitN]
    cases hbd : breakAtDot l with
    | none => simp
    | some p => obtain ⟨b, a⟩ := p; simp

/-- Joining the full `SplitN(s, ".", Count(s, "."))` split reassembles the
string, whenever there is at least one dot. -/
theorem hostJoin_goSplitN (l : List Char) (h : 1 ≤ countDot l) :
    hostJoin (goSplitN (countDot l) l) = l := by
  obtain ⟨b, a, hbd⟩ : ∃ b a, breakAtDot l = some (b, a) := by
    cases hb : breakAtDot l with
    | none => exact absurd ((breakAtDot_none_iff l).mp hb) (by omega)
    | some p => exact ⟨p.1, p.2, by simp [hb]⟩
  obtain ⟨hre, hnb⟩ := breakAtDot_parts hbd
  have hcount : countDot l = countDot a + 1 := by
    rw [hre, countDot_split, countDot_eq_zero_of_not_mem hnb]
    omega
  by_cases hc1 : countDot l = 1
  · rw [hc1]
    simp [goSplitN, hostJoin]
  · have hc2 : 1 ≤ countDot a := by omega
    have hih := hostJoin_goSplitN a hc2
    obtain ⟨m, hm⟩ : ∃ m, countDot l = m + 2 := ⟨countDot a - 1, by omega⟩
    rw [hm]
    simp only [goSplitN, hbd]
    have hm' : m + 1 = countDot a := by omega
    rw [hm']
    rw [hostJoin_cons b (goSplitN_ne_nil hc2 a), hih, ← hre]
termination_by l.length
decreasing_by exact breakAtDot_length hbd

theorem possibleDomainsOf_zero {l : List Char} (h : countDot l = 0) :
    possibleDomainsOf l = [] := by
  simp [possibleDomainsOf, h, goSplitN]

theorem possibleDomainsOf_one {l : List Char} (h : countDot l = 1) :
    possibleDomainsOf l = [l] := by
  simp [possibleDomainsOf, h, goSplitN, hostJoin, List.range_succ]

theorem possibleDomainsOf_step {l b a : List Char} (h2 : 2 ≤ countDot l)
    (hbd : breakAtDot l = some (b, a)) :
    possibleDomainsOf l = l :: possibleDomainsOf a := by
  obtain ⟨hre, hnb⟩ := breakAtDot_parts hbd
  have hcount : countDot l = countDot a + 1 := by
    rw [hre, countDot_split, countDot_eq_zero_of_not_mem hnb]
    omega
  have hca : 1 ≤ countDot a := by omega
  obtain ⟨m, hm⟩ : ∃ m, countDot l = m + 2 := ⟨countDot a - 1, by omega⟩
  have hm' : m + 1 = countDot a := by omega
  have hsplit : goSplitN (countDot l) l = b :: goSplitN (countDot a) a := by
    rw [hm]
    simp only [goSplitN, hbd]
    rw [hm']
  have hjoin : hostJoin (b :: goSplitN (countDot a) a) = l := by
    rw [hostJoin_cons b (goSplitN_ne_nil hca a), hostJoin_goSplitN a hca, ← hre]
  simp only [possibleDomainsOf, hsplit]
  rw [List.length_cons, List.range_succ_eq_map]
  simp only [List.map_cons, List.drop_zero, hjoin, List.map_map]
  congr 1

/-- C2 (amended): for every hostname, the per-hostname candidate set of
`generatePossibleDomains` contains exactly the dot-delimited suffixes with
at least two labels (the full string included when it has a dot); the
single top-level label is never produced, and a single-label hostname
yields the empty set. -/
theorem possibleDomainsOf_mem (hostname s : List Char) :
    s ∈ possibleDomainsOf hostname ↔ CandSuffix s hostname := by
  by_cases hc0 : countDot hostname = 0
  · rw [possibleDomainsOf_zero hc0]
    simp only [List.not_mem_nil, false_iff]
    rintro ⟨hds, hc⟩
    rcases hds with rfl | ⟨pre, rfl⟩
    · omega
    · rw [countDot_split] at hc0
      omega
  · obtain ⟨b, a, hbd⟩ : ∃ b a, breakAtDot hostname = some (b, a) := by
      cases hb : breakAtDot hostname with
      | none => exact absurd ((breakAtDot_none_iff hostname).mp hb) hc0
      | some p => exact ⟨p.1, p.2, by simp [hb]⟩
    obtain ⟨hre, hnb⟩ := breakAtDot_parts hbd
    by_cases hc1 : countDot hostname = 1
    · rw [possibleDomainsOf_one hc1]
      simp only [List.mem_singleton]
      constructor
      · rintro rfl
        exact ⟨Or.inl rfl, by omega⟩
      · rintro ⟨hds, hc⟩
        rcases hds with rfl | ⟨pre, rfl⟩
        · rfl
        · rw [countDot_split] at hc1
          omega
    · have hc2 : 2 ≤ countDot hostname := by omega
      rw [possibleDomainsOf_step hc2 hbd]
      have hih := possibleDomainsOf_mem a s
      simp only [List.mem_cons]
      rw [hih, cand_transfer hre hnb s]
termination_by hostname.length
decreasing_by exact breakAtDot_length hbd

/-! ## C3: the structure of `CalculateRoutes` -/

theorem goCopy_eq (l : List Route) : goCopy l = l := by
  suffices h : ∀ acc, List.foldl (fun acc r => acc ++ [r]) acc l = acc ++ l by
    simpa using h []
  induction l with
  | nil => intro acc; simp
  | cons r rs ih =>
    intro acc
    simp only [List.foldl_cons, ih]
    simp

/-- The domain cache `CalculateRoutes` builds before its per-route loop:
the batched client lookup over the unknown routes' candidate domains. -/
def calcDomainCache (cl : V2Client) (routes : List (List Char))
    (existingRoutes : List Route) (orgGUID : List Char) :
    List (List Char × Domain) :=
  match generatePossibleDomains (splitExistingRoutes routes existingRoutes).2 with
  | .error _ => []
  | .ok possibleDomains =>
    buildDomainCache (cl.GetDomainsByNameAndOrganization possibleDomains orgGUID).1

theorem calcRoutesLoop_ok (cl : V2Client) (spaceGUID : List Char)
    (cache : List (List Char × Domain)) :
    ∀ (us : List (List Char)) (acc : List Route) (w : Warnings)
      (out : List Route) (w' : Warnings),
      calcRoutesLoop cl spaceGUID cache us acc w = some (out, w', none) →
      ∃ rs, out = acc ++ rs ∧
        List.Forall₂ (fun u r => ∃ wu,
            resolveOne cl spaceGUID cache u = some (wu, .ok r)) us rs := by
  intro us
  induction us with
  | nil =>
    intro acc w out w' h
    simp only [calcRoutesLoop, Option.some.injEq, Prod.mk.injEq] at h
    exact ⟨[], by simp [h.1], List.Forall₂.nil⟩
  | cons u us ih =>
    intro acc w out w' h
    simp only [calcRoutesLoop] at h
    cases hro : resolveOne cl spaceGUID cache u with
    | none => rw [hro] at h; exact absurd h (by simp)
    | some p =>
      rw [hro] at h
      obtain ⟨wu, res⟩ := p
      cases res with
      | error e =>
        change some ([], w ++ wu, some e) = some (out, w', none) at h
        simp at h
      | ok r =>
        change calcRoutesLoop cl spaceGUID cache us (acc ++ [r]) (w ++ wu) =
          some (out, w', none) at h
        obtain ⟨rs, hout, hfa⟩ := ih (acc ++ [r]) (w ++ wu) out w' h
        refine ⟨r :: rs, by simp [hout], List.Forall₂.cons ⟨wu, by rw [hro]⟩ hfa⟩

/-- C3 (amended): on success, `CalculateRoutes` returns all of
`existingRoutes` unchanged and in order, followed by one resolved route per
raw string that matched no existing route by normalized string identity
(the matching raw strings are dropped; every existing route passes through
whether or not any raw string matched it). -/
theorem CalculateRoutes_spec (cl : V2Client) (routes : List (List Char))
    (orgGUID spaceGUID : List Char) (existingRoutes : List Route)
    (out : List Route) (w : Warnings)
    (h : CalculateRoutes cl routes orgGUID spaceGUID existingRoutes = some (out, w, none)) :
    ∃ resolved, out = existingRoutes ++ resolved ∧
      List.Forall₂ (fun u r => ∃ wu,
          resolveOne cl spaceGUID (calcDomainCache cl routes existingRoutes orgGUID) u
            = some (wu, .ok r))
        (routes.filter fun route => (routeInListByName route existingRoutes).isNone)
        resolved := by
  unfold CalculateRoutes at h
  rcases hse : splitExistingRoutes routes existingRoutes with ⟨cr, ur⟩
  simp only [hse] at h
  have hcr : cr = existingRoutes := by
    have h1 : (splitExistingRoutes routes existingRoutes).1 = cr := by rw [hse]
    rw [← h1]
    simp [splitExistingRoutes, goCopy_eq]
  have hur : ur = routes.filter fun route => (routeInListByName route existingRoutes).isNone := by
    have h2 : (splitExistingRoutes routes existingRoutes).2 = ur := by rw [hse]
    rw [← h2]
    simp [splitExistingRoutes]
  have hse2 : (splitExistingRoutes routes existingRoutes).2 = ur := by rw [hse]
  cases hg : generatePossibleDomains ur with
  | error e =>
    simp only [hg] at h
    simp at h
  | ok possibleDomains =>
    simp only [hg] at h
    rcases hc : cl.GetDomainsByNameAndOrganization possibleDomains orgGUID with ⟨fd, ws, err⟩
    simp only [hc] at h
    cases err with
    | some e => simp at h
    | none =>
      have hcache : calcDomainCache cl routes existingRoutes orgGUID = buildDomainCache fd := by
        unfold calcDomainCache
        rw [hse2, hg]
        show buildDomainCache (cl.GetDomainsByNameAndOrganization possibleDomains orgGUID).1 =
          buildDomainCache fd
        rw [hc]
      change calcRoutesLoop cl spaceGUID (buildDomainCache fd) ur cr ws = some (out, w, none) at h
      obtain ⟨rs, hout, hfa⟩ := calcRoutesLoop_ok cl spaceGUID (buildDomainCache fd) ur cr ws out w h
      refine ⟨rs, ?_, ?_⟩
      · rw [hout, hcr]
      · rw [hcache, ← hur]
        exact hfa

/-! ## C10: single-label hostnames panic instead of erroring -/

/-- C10: for every hostname containing no dot (such as `"localhost"`),
domain resolution is undefined rather than a `DomainNotFoundError`:
`splitHost` reads index 1 of a length-1 `SplitN` slice, so `calculateRoute`
— and hence `CalculateRoutes` on such a raw route — performs an
out-of-bounds access (modelled `none`) instead of returning any error
value. -/
theorem splitHost_dotless_panics :
    (∀ url : List Char, countDot url = 0 → splitHost url = none) ∧
    (∀ (cache : List (List Char × Domain)) (url : List Char), countDot url = 0 →
      calculateRoute cache url = none) ∧
    (∀ (cl : V2Client) (orgGUID spaceGUID : List Char),
      (cl.GetDomainsByNameAndOrganization [] orgGUID).2.2 = none →
      CalculateRoutes cl ["localhost".data] orgGUID spaceGUID [] = none) := by
  have p1 : ∀ url : List Char, countDot url = 0 → splitHost url = none := by
    intro url h
    unfold splitHost
    rw [if_neg (by omega), (breakAtDot_none_iff url).mpr h]
  have p2 : ∀ (cache : List (List Char × Domain)) (url : List Char), countDot url = 0 →
      calculateRoute cache url = none :=
    fun cache url h => calculateRoute_none (p1 url h)
  refine ⟨p1, p2, ?_⟩
  intro cl orgGUID spaceGUID h
  have hres : ∀ cache, resolveOne cl spaceGUID cache "localhost".data = none := by
    intro cache
    have hp : parseURL "localhost".data = .ok ("localhost".data, {}, []) := rfl
    unfold resolveOne
    simp only [hp, p2 cache "localhost".data (by decide)]
  unfold CalculateRoutes
  have hsplit : splitExistingRoutes ["localhost".data] ([] : List Route) =
      ([], ["localhost".data]) := rfl
  simp only [hsplit]
  have hg : generatePossibleDomains ["localhost".data] = .ok [] := rfl
  simp only [hg]
  rcases hc : cl.GetDomainsByNameAndOrganization [] orgGUID with ⟨fd, ws, err⟩
  rw [hc] at h
  simp only at h
  subst h
  simp only [hc, calcRoutesLoop, hres (buildDomainCache fd)]

/-! ## Concrete instances: counterexamples and witnesses -/

def exDomain : Domain := { Name := "example.com".data, GUID := "dguid".data }

def exDomainB : Domain := { Name := "b".data, GUID := "bguid".data }

def exCache : List (List Char × Domain) := [("example.com".data, exDomain)]

def exCacheB : List (List Char × Domain) := [("b".data, exDomainB)]

def exRoute : Route :=
  { GUID := "rguid".data, Host := "h".data, Domain := exDomain, SpaceGUID := "space".data }

/-- A client whose calls all succeed with no results and no warnings. -/
def trivialClient : V2Client :=
  { GetDomainsByNameAndOrganization := fun _ _ => ([], [], none)
    FindRouteBoundToSpaceWithSettings := fun _ => ({}, [], some .RouteNotFoundError)
    MapRouteToApplication := fun _ _ => ([], none)
    UnmapRouteFromApplication := fun _ _ => ([], none)
    CreateRoute := fun r _ => (r, [], none) }

/-- A client whose calls all fail. -/
def failClient : V2Client :=
  { GetDomainsByNameAndOrganization := fun _ _ => ([], ["w0".data], some (.ClientError "boom".data))
    FindRouteBoundToSpaceWithSettings := fun _ => ({}, ["w1".data], some (.ClientError "boom".data))
    MapRouteToApplication := fun _ _ => (["mw".data], some (.ClientError "boom".data))
    UnmapRouteFromApplication := fun _ _ => (["uw".data], some (.ClientError "boom".data))
    CreateRoute := fun _ _ => ({}, ["cw".data], some (.ClientError "boom".data)) }

/-- C1 counterexample: with the cache holding the single-label domain name
`"b"`, resolving `"a.b"` — of which `"b"` is a dot-delimited suffix — does
not return that domain but fails with `DomainNotFoundError`, refuting the
claim that the longest suffix present in the domain mapping is matched. -/
theorem calculateRoute_no_single_label_match :
    ("a.b".data = "a".data ++ '.' :: "b".data ∧
      lookupC exCacheB "b".data = some exDomainB) ∧
    calculateRoute exCacheB "a.b".data =
      some ([], {}, some (.DomainNotFoundError "a.b".data)) := by
  refine ⟨by decide, ?_⟩
  have hs : splitHost "a.b".data = some ([], "a.b".data) := by decide
  have hl : lookupC exCacheB "a.b".data = none := by decide
  exact calculateRoute_notfound hs hl

/-- C1 witness: the amended theorem applied to the claim's own scenario,
domains `= {"example.com"}` and hostname `"www.foo.example.com"`, together
with the concrete result `hostLabels = ["www", "foo"]` and domain
`example.com`. -/
theorem calculateRoute_longest_suffix_witness :
    ResolveSpec exCache "www.foo.example.com".data ∧
    calculateRoute exCache "www.foo.example.com".data =
      some (["www".data, "foo".data], exDomain, none) := by
  constructor
  · exact calculateRoute_longest_suffix exCache "www.foo.example.com".data
      (by decide) (by decide)
  · have h3 : calculateRoute exCache "example.com".data = some ([], exDomain, none) :=
      calculateRoute_hit
        (by decide : splitHost "example.com".data = some ([], "example.com".data))
        (by decide : lookupC exCache "example.com".data = some exDomain)
    have h2 : calculateRoute exCache "foo.example.com".data =
        some (["foo".data], exDomain, none) := by
      rw [calculateRoute_step
        (by decide : splitHost "foo.example.com".data =
          some ("foo".data, "example.com".data))
        (by decide) (by decide), h3]
    rw [calculateRoute_step
      (by decide : splitHost "www.foo.example.com".data =
        some ("www".data, "foo.example.com".data))
      (by decide) (by decide), h2]

/-- C2 counterexample: the candidate set for `"a.b.c"` is exactly
`{"a.b.c", "b.c"}` — the top-level label `"c"` is missing, refuting the
claim that every suffix down to the top-level label is produced (the
single-label case, `"a"` giving the empty set, does hold). -/
theorem possibleDomainsOf_no_top_label :
    possibleDomainsOf "a.b.c".data = ["a.b.c".data, "b.c".data] ∧
    ¬("c".data ∈ possibleDomainsOf "a.b.c".data) ∧
    possibleDomainsOf "a".data = [] := by decide

/-- C3 counterexample: with no raw route strings at all, nothing is
"passed through" under the claim's reading, yet `CalculateRoutes` returns
the existing route: every existing route is copied to the output whether
or not any raw string matched it. -/
theorem CalculateRoutes_passthrough_all_existing :
    CalculateRoutes trivialClient [] [] [] [exRoute] = some ([exRoute], [], none) ∧
    ([exRoute] : List Route) ≠ [] := by
  refine ⟨by decide, by simp⟩

/-- C3 witness: the amended theorem applied to one raw string that matches
the one existing route by normalized string identity. -/
theorem CalculateRoutes_spec_witness :
    ∃ resolved, [exRoute] = [exRoute] ++ resolved ∧
      List.Forall₂ (fun u r => ∃ wu,
          resolveOne trivialClient []
            (calcDomainCache trivialClient ["h.example.com".data] [exRoute] []) u
            = some (wu, .ok r))
        ((["h.example.com".data]).filter fun route =>
          (routeInListByName route [exRoute]).isNone)
        resolved :=
  CalculateRoutes_spec trivialClient ["h.example.com".data] [] [] [exRoute]
    [exRoute] [] (by decide)

/-- A route bound to the application. -/
def routeCur : Route :=
  { GUID := "g1".data, Host := "old".data, Domain := exDomain, SpaceGUID := "space".data }

/-- A route structurally different from `routeCur` but with its GUID. -/
def routeDes : Route :=
  { GUID := "g1".data, Host := "new".data, Domain := exDomainB, Path := "/p".data,
    SpaceGUID := "other".data }

def cfgIdem : ApplicationConfig :=
  { DesiredApplication := { GUID := "app".data }
    CurrentRoutes := [routeCur]
    DesiredRoutes := [routeDes] }

/-- C7 witness: a desired route structurally different from the current one
but sharing its GUID is skipped — even against a client whose every bind
call fails, `MapRoutes` (once and twice) performs zero calls, succeeds, and
reports no new binding. -/
theorem MapRoutes_idempotent_witness :
    mapAttempts failClient cfgIdem.DesiredApplication.GUID cfgIdem.CurrentRoutes
        cfgIdem.DesiredRoutes = [] ∧
    MapRoutes failClient cfgIdem =
      ({ cfgIdem with CurrentRoutes := cfgIdem.DesiredRoutes }, false, [], none) ∧
    MapRoutes failClient { cfgIdem with CurrentRoutes := cfgIdem.DesiredRoutes } =
      ({ cfgIdem with CurrentRoutes := cfgIdem.DesiredRoutes }, false, [], none) :=
  MapRoutes_idempotent failClient cfgIdem (by decide)

end CF
